import Mathlib

/-!
Shallow embedding of the tarish coordinator store (`store.go`, package `store`)
and the coordinator API routing/authentication (`server.go`, package `api`).

Modelling choices:
* SQLite tables are lists of rows.  The `PRIMARY KEY` upsert
  (`INSERT ... ON CONFLICT DO UPDATE`) replaces the first row with the
  conflicting key and otherwise appends; `UPDATE ... WHERE` maps over all
  matching rows; `DELETE ... WHERE` filters; `ORDER BY` is a stable
  insertion sort.
* `time.Time` values (always stored as RFC3339 UTC strings, whose SQL text
  ordering agrees with time ordering) are `Nat` seconds; `time.Now()` is an
  explicit `now` parameter at each call that reads the clock.
* Go `float64` hashrates are `Rat` (the numeric identities at stake do not
  depend on floating-point rounding); Go `int`/`int64` are `Int`.
* Arbitrary JSON objects (`map[string]interface{}`) are association lists
  `List (String × String)`; `json.Marshal`/`Unmarshal` of such a map round
  trips, and a `nil` map marshals to the same text as an empty map, so both
  are embedded as `[]`.
* Go methods returning `error` never fail in the fragments modelled here
  except on database I/O, which the embedding abstracts away; they are total
  functions on the state.
-/

namespace Tarish

/-- JSON object documents (override documents, config snapshots). -/
abbrev Json := List (String × String)

/-- models.HashrateData: the current/average/max hashrate triple. -/
structure HashrateData where
  current : Rat
  average : Rat
  maxRate : Rat
deriving Repr, DecidableEq

/-- models.AgentReport: the report payload an agent POSTs. -/
structure AgentReport where
  minerId : String
  workerId : String
  hostname : String
  ip : String
  cpuModel : String
  cpuFamily : String
  cores : Int
  os : String
  arch : String
  xmrigVersion : String
  tarishVersion : String
  uptimeSeconds : Int
  hashrate : Option HashrateData
  config : Option Json
deriving Repr, DecidableEq

/-- One row of the `miners` table. -/
structure MinerRow where
  id : String
  minerId : String
  workerId : String
  hostname : String
  ip : String
  cpuModel : String
  cpuFamily : String
  cores : Int
  os : String
  arch : String
  xmrigVersion : String
  tarishVersion : String
  uptimeSeconds : Int
  hashrateCurrent : Rat
  hashrateAverage : Rat
  hashrateMax : Rat
  configJson : Json
  lastSeen : Nat
deriving Repr, DecidableEq

/-- One row of the `config_overrides` table (`applied_at` is nullable). -/
structure OverrideRow where
  minerId : String
  overrideJson : Json
  createdAt : Nat
  appliedAt : Option Nat
deriving Repr, DecidableEq

/-- One row of the `hashrate_history` table. -/
structure HistRow where
  minerId : String
  timestamp : Nat
  current : Rat
  average : Rat
  maxRate : Rat
deriving Repr, DecidableEq

/-- The three tables owned by the Store. -/
structure StoreState where
  miners : List MinerRow
  configOverrides : List OverrideRow
  hashrateHistory : List HistRow
deriving Repr, DecidableEq

/-- The state right after `migrate`: three empty tables. -/
def emptyStore : StoreState := ⟨[], [], []⟩

/-- models.Miner as read back by `GetMiner`/`GetMiners`: the Go code always
allocates the `Hashrate` pointer, parses `config_json` only when it differs
from `{}`, and derives `status` at read time. -/
structure Miner where
  id : String
  minerId : String
  workerId : String
  hostname : String
  ip : String
  cpuModel : String
  cpuFamily : String
  cores : Int
  os : String
  arch : String
  xmrigVersion : String
  tarishVersion : String
  uptimeSeconds : Int
  hashrate : HashrateData
  config : Option Json
  lastSeen : Nat
  status : String
deriving Repr, DecidableEq

/-- `minerStatus`: status derived from `time.Since(lastSeen)`; thresholds
`90*time.Second` and `5*time.Minute`. -/
def minerStatus (now lastSeen : Nat) : String :=
  if (now : Int) - (lastSeen : Int) < 90 then "online"
  else if (now : Int) - (lastSeen : Int) < 300 then "stale"
  else "offline"

/-- The identity key used by `UpsertMiner`: `report.MinerID`, falling back to
`report.WorkerID` when empty. -/
def reportKey (r : AgentReport) : String :=
  if r.minerId = "" then r.workerId else r.minerId

/-- The `miners` row built from a report inside `UpsertMiner`: hashrate
columns default to 0 when `report.Hashrate == nil`, `config_json` defaults
to the empty document when `report.Config == nil`, `last_seen` is `now`. -/
def reportRow (r : AgentReport) (now : Nat) : MinerRow :=
  { id := reportKey r
    minerId := r.minerId
    workerId := r.workerId
    hostname := r.hostname
    ip := r.ip
    cpuModel := r.cpuModel
    cpuFamily := r.cpuFamily
    cores := r.cores
    os := r.os
    arch := r.arch
    xmrigVersion := r.xmrigVersion
    tarishVersion := r.tarishVersion
    uptimeSeconds := r.uptimeSeconds
    hashrateCurrent := match r.hashrate with | some h => h.current | none => 0
    hashrateAverage := match r.hashrate with | some h => h.average | none => 0
    hashrateMax := match r.hashrate with | some h => h.maxRate | none => 0
    configJson := r.config.getD []
    lastSeen := now }

/-- `INSERT INTO miners ... ON CONFLICT(id) DO UPDATE`: replace the row whose
primary key matches (at most one exists under the PK constraint), else
append. -/
def upsertMinerRow (row : MinerRow) : List MinerRow → List MinerRow
  | [] => [row]
  | m :: ms => if m.id = row.id then row :: ms else m :: upsertMinerRow row ms

/-- `Store.UpsertMiner`: upsert the miner row, then (only when
`report.Hashrate != nil`) append one `hashrate_history` sample carrying the
same identity key, timestamp and triple. -/
def upsertMiner (st : StoreState) (r : AgentReport) (now : Nat) : StoreState :=
  let row := reportRow r now
  { st with
    miners := upsertMinerRow row st.miners
    hashrateHistory :=
      match r.hashrate with
      | some h => st.hashrateHistory ++ [⟨reportKey r, now, h.current, h.average, h.maxRate⟩]
      | none => st.hashrateHistory }

/-- `scanMiner`/`GetMiner` row decoding: hashrate pointer always set from the
columns, `config` parsed only when the stored text is neither empty nor
`\x7b\x7d`, `status` derived from `last_seen`. -/
def rowToMiner (now : Nat) (m : MinerRow) : Miner :=
  { id := m.id
    minerId := m.minerId
    workerId := m.workerId
    hostname := m.hostname
    ip := m.ip
    cpuModel := m.cpuModel
    cpuFamily := m.cpuFamily
    cores := m.cores
    os := m.os
    arch := m.arch
    xmrigVersion := m.xmrigVersion
    tarishVersion := m.tarishVersion
    uptimeSeconds := m.uptimeSeconds
    hashrate := ⟨m.hashrateCurrent, m.hashrateAverage, m.hashrateMax⟩
    config := if m.configJson = [] then none else some m.configJson
    lastSeen := m.lastSeen
    status := minerStatus now m.lastSeen }

/-- `Store.GetMiner`: `SELECT ... WHERE id = ?` returns the (unique) matching
row, decoded by the same scan logic. -/
def getMiner (st : StoreState) (id : String) (now : Nat) : Option Miner :=
  (st.miners.find? (fun m => m.id == id)).map (rowToMiner now)

/-- `SELECT ... FROM miners ORDER BY hashrate_current DESC`. -/
def minersByHashrateDesc (l : List MinerRow) : List MinerRow :=
  l.insertionSort (fun a b => b.hashrateCurrent ≤ a.hashrateCurrent)

/-- `Store.GetMiners`: all rows ordered by descending current hashrate,
decoded by `scanMiner`. -/
def getMiners (st : StoreState) (now : Nat) : List Miner :=
  (minersByHashrateDesc st.miners).map (rowToMiner now)

/-- `Store.SetConfigOverride`: `INSERT INTO config_overrides ... ON
CONFLICT(miner_id) DO UPDATE SET override_json=..., created_at=...,
applied_at=NULL`; the insert path also leaves `applied_at` NULL. -/
def setConfigOverrideRow (row : OverrideRow) : List OverrideRow → List OverrideRow
  | [] => [row]
  | o :: os => if o.minerId = row.minerId then row :: os else o :: setConfigOverrideRow row os

/-- `Store.SetConfigOverride` on the whole state. -/
def setConfigOverride (st : StoreState) (minerID : String) (override : Json) (now : Nat) :
    StoreState :=
  { st with configOverrides :=
      setConfigOverrideRow ⟨minerID, override, now, none⟩ st.configOverrides }

/-- `Store.GetConfigOverride`: no row means no override; a row with
`applied_at` non-NULL is also reported as no override; otherwise the
document. -/
def getConfigOverride (st : StoreState) (minerID : String) : Option Json :=
  match st.configOverrides.find? (fun o => o.minerId == minerID) with
  | none => none
  | some o => if o.appliedAt.isSome then none else some o.overrideJson

/-- `Store.GetLastOverride`: the document regardless of applied state. -/
def getLastOverride (st : StoreState) (minerID : String) : Option Json :=
  (st.configOverrides.find? (fun o => o.minerId == minerID)).map (fun o => o.overrideJson)

/-- `Store.MarkConfigApplied`: `UPDATE config_overrides SET applied_at = ?
WHERE miner_id = ?`; touching zero rows is not an error. -/
def markConfigApplied (st : StoreState) (minerID : String) (now : Nat) : StoreState :=
  { st with configOverrides := st.configOverrides.map (fun o => if o.minerId == minerID then { o with appliedAt := some now } else o) }

/-- `Store.DeleteConfigOverride`: `DELETE FROM config_overrides WHERE
miner_id = ?`. -/
def deleteConfigOverride (st : StoreState) (minerID : String) : StoreState :=
  { st with configOverrides := st.configOverrides.filter (fun o => !(o.minerId == minerID)) }

/-- The row filter of `Store.GetHashrateHistory`: `timestamp > since`, and
`miner_id = ?` only when a non-empty id was passed. -/
def histMatches (minerID : String) (since : Nat) (h : HistRow) : Bool :=
  decide (since < h.timestamp) && (minerID == "" || h.minerId == minerID)

/-- `Store.GetHashrateHistory`: matching samples `ORDER BY timestamp ASC`. -/
def getHashrateHistory (st : StoreState) (minerID : String) (since : Nat) : List HistRow :=
  (st.hashrateHistory.filter (histMatches minerID since)).insertionSort
    (fun a b => a.timestamp ≤ b.timestamp)

/-- models.OverviewResponse. -/
structure OverviewResponse where
  totalHashrate : Rat
  averageHashrate : Rat
  activeMiners : Nat
  totalMiners : Nat
  topMiners : List Miner
deriving Repr, DecidableEq

/-- `Store.GetOverview`: over `GetMiners()` output, count every miner, and
for the miners whose derived status is `online` accumulate the count, the
sum of `Hashrate.Current` into `TotalHashrate` and the sum of
`Hashrate.Average` into `AverageHashrate` (the Go loop's `Hashrate != nil`
guard is vacuous: `scanMiner` always sets the pointer); `TopMiners` is the
first `min 5 len` of the hashrate-descending list. -/
def getOverview (st : StoreState) (now : Nat) : OverviewResponse :=
  let miners := getMiners st now
  let online := miners.filter (fun m => m.status == "online")
  { totalMiners := miners.length
    activeMiners := online.length
    totalHashrate := (online.map (fun m => m.hashrate.current)).sum
    averageHashrate := (online.map (fun m => m.hashrate.average)).sum
    topMiners := miners.take 5 }

/-- `Store.PruneHistory`: `DELETE FROM hashrate_history WHERE timestamp < ?`
with cutoff `now - olderThan`. -/
def pruneHistory (st : StoreState) (olderThan : Nat) (now : Nat) : StoreState :=
  { st with hashrateHistory :=
      st.hashrateHistory.filter (fun h => !(decide ((h.timestamp : Int) < (now : Int) - olderThan))) }

/-! Coordinator API surface (`server.go`): routing and the bearer-token
middleware.  A handler body is abstracted as a state transformer returning
the new store state and its response payload; `ApiOutcome.rejected` is the
middleware writing `401 unauthorized` and returning before the handler
runs. -/

/-- The endpoints registered by `Server.Routes`. -/
inductive Endpoint where
  | report
  | getMinersEp
  | getMinerEp
  | setConfigEp
  | getPendingConfig
  | ackConfig
  | deleteConfigEp
  | overviewEp
  | hashrateHistoryEp
  | proxySummaryEp
  | proxyWorkersEp
deriving Repr, DecidableEq

/-- Which endpoints `Routes` wraps in `authMiddleware`: exactly report
ingestion, pending-override read and override ack. -/
def isProtectedEndpoint : Endpoint → Bool
  | .report => true
  | .getPendingConfig => true
  | .ackConfig => true
  | _ => false

/-- Result of serving one request: either the 401 rejection written by the
middleware, or the wrapped handler's response. -/
inductive ApiOutcome (ρ : Type) where
  | rejected
  | ok (resp : ρ)
deriving Repr, DecidableEq

/-- `Server.authMiddleware`: when an agent key is configured and the
`Authorization` header is not `Bearer <key>`, write 401 and return without
calling `next`; otherwise call `next`. -/
def authMiddleware {ρ : Type} (agentKey authHeader : String)
    (next : StoreState → StoreState × ρ) (st : StoreState) : StoreState × ApiOutcome ρ :=
  if agentKey ≠ "" then
    if authHeader ≠ "Bearer " ++ agentKey then (st, .rejected)
    else let p := next st; (p.1, .ok p.2)
  else let p := next st; (p.1, .ok p.2)

/-- `Server.Routes` dispatch for one endpoint: the three protected endpoints
go through `authMiddleware`; every other endpoint calls its handler
directly. -/
def serveEndpoint {ρ : Type} (agentKey : String) (e : Endpoint) (authHeader : String)
    (handler : StoreState → StoreState × ρ) (st : StoreState) : StoreState × ApiOutcome ρ :=
  if isProtectedEndpoint e then authMiddleware agentKey authHeader handler st
  else let p := handler st; (p.1, .ok p.2)

end Tarish


namespace Tarish

/-! Concrete data used by witnesses and counterexamples. -/

/-- A sample agent report with hashrate and config data present. -/
def sampleReport : AgentReport :=
  { minerId := "abc", workerId := "w1", hostname := "host", ip := "10.0.0.1"
    cpuModel := "EPYC", cpuFamily := "zen", cores := 16, os := "linux", arch := "amd64"
    xmrigVersion := "6.21", tarishVersion := "1.0", uptimeSeconds := 42
    hashrate := some ⟨1000, 950, 1100⟩, config := some [("pool", "p1")] }

/-- A sample agent report with no hashrate data. -/
def sampleReportNoHash : AgentReport :=
  { sampleReport with hashrate := none }

/-! Helper lemmas about the list-level table operations. -/

/-- After a miner upsert, looking the primary key up finds exactly the new
row. -/
theorem upsertMinerRow_find (row : MinerRow) (l : List MinerRow) :
    (upsertMinerRow row l).find? (fun m => m.id == row.id) = some row := by
  induction l with
  | nil => simp [upsertMinerRow]
  | cons m ms ih =>
    unfold upsertMinerRow
    by_cases h : m.id = row.id
    · rw [if_pos h]
      exact List.find?_cons_of_pos _ (by simp)
    · rw [if_neg h]
      rw [List.find?_cons_of_neg _ (by simp [h]), ih]

/-- After an override upsert, looking the primary key up finds exactly the
new row. -/
theorem setConfigOverrideRow_find (row : OverrideRow) (l : List OverrideRow) :
    (setConfigOverrideRow row l).find? (fun o => o.minerId == row.minerId) = some row := by
  induction l with
  | nil => simp [setConfigOverrideRow]
  | cons o os ih =>
    unfold setConfigOverrideRow
    by_cases h : o.minerId = row.minerId
    · rw [if_pos h]
      exact List.find?_cons_of_pos _ (by simp)
    · rw [if_neg h]
      rw [List.find?_cons_of_neg _ (by simp [h]), ih]

/-- `GetConfigOverride` right after `SetConfigOverride` yields the document
just set, pending, whatever the prior state was. -/
theorem getConfigOverride_setConfigOverride (st : StoreState) (id : String) (doc : Json)
    (now : Nat) : getConfigOverride (setConfigOverride st id doc now) id = some doc := by
  unfold getConfigOverride setConfigOverride
  rw [setConfigOverrideRow_find ⟨id, doc, now, none⟩ st.configOverrides]
  rfl

/-- The `UPDATE` of `MarkConfigApplied` commutes with primary-key lookup. -/
theorem markConfigApplied_find (id : String) (now : Nat) (l : List OverrideRow) :
    (l.map (fun o => if o.minerId == id then { o with appliedAt := some now } else o)).find?
        (fun o => o.minerId == id) =
      (l.find? (fun o => o.minerId == id)).map
        (fun o => { o with appliedAt := some now }) := by
  induction l with
  | nil => simp
  | cons o os ih =>
    by_cases h : o.minerId = id
    · simp [List.find?, h]
    · simp only [List.map_cons]
      rw [if_neg (by simp [h])]
      rw [List.find?_cons_of_neg _ (by simp [h]), List.find?_cons_of_neg _ (by simp [h]), ih]

end Tarish

namespace Tarish

/-- C1: after `SetConfigOverride(id, D1)`, `MarkConfigApplied(id)`,
`SetConfigOverride(id, D2)`, a call to `GetConfigOverride(id)` returns D2 as
a pending override, not "none": setting a new override always replaces the
existing row and resets `applied_at` to null, even when the prior override
had already been applied. -/
theorem claim1_set_mark_set_returns_new_pending (st : StoreState) (id : String)
    (d1 d2 : Json) (t1 t2 t3 : Nat) :
    getConfigOverride
        (setConfigOverride (markConfigApplied (setConfigOverride st id d1 t1) id t2) id d2 t3)
        id = some d2 ∧
    getConfigOverride
        (setConfigOverride (markConfigApplied (setConfigOverride st id d1 t1) id t2) id d2 t3)
        id ≠ none := by
  rw [getConfigOverride_setConfigOverride]
  exact ⟨rfl, by simp⟩

/-- C2: `GetConfigOverride(id)` returns no override immediately after
`MarkConfigApplied(id)`; `MarkConfigApplied(id)` is a no-op (and not an
error) when no override row exists; and marking again on an already-applied
override collapses to a single mark — an idempotent no-op. -/
theorem claim2_mark_applied_hides_noop_idempotent (st : StoreState) (mid : String)
    (t t' : Nat) :
    getConfigOverride (markConfigApplied st mid t) mid = none ∧
    (st.configOverrides.find? (fun o => o.minerId == mid) = none →
      markConfigApplied st mid t = st) ∧
    markConfigApplied (markConfigApplied st mid t) mid t' = markConfigApplied st mid t' := by
  refine ⟨?_, ?_, ?_⟩
  · unfold getConfigOverride
    rw [show (markConfigApplied st mid t).configOverrides =
          st.configOverrides.map
            (fun o => if o.minerId == mid then { o with appliedAt := some t } else o) from rfl,
      markConfigApplied_find]
    cases st.configOverrides.find? (fun o => o.minerId == mid) <;> simp
  · intro hnone
    have hmap : st.configOverrides.map
        (fun o => if o.minerId == mid then { o with appliedAt := some t } else o) =
        st.configOverrides := by
      conv_rhs => rw [← List.map_id st.configOverrides]
      apply List.map_congr_left
      intro o ho
      have hne := List.find?_eq_none.mp hnone o ho
      simp only [id]
      rw [if_neg hne]
    show { st with configOverrides := _ } = st
    rw [hmap]
  · unfold markConfigApplied
    simp only [List.map_map]
    congr 1
    apply List.map_congr_left
    intro o _
    by_cases h : o.minerId = mid <;> simp [h, Function.comp]

/-- C2 witness: the three conclusions at the empty store, miner id `abc`,
marking times 5 then 7; the no-row hypothesis holds there by computation. -/
theorem claim2_witness :
    getConfigOverride (markConfigApplied emptyStore "abc" 5) "abc" = none ∧
    markConfigApplied emptyStore "abc" 5 = emptyStore ∧
    markConfigApplied (markConfigApplied emptyStore "abc" 5) "abc" 7 =
      markConfigApplied emptyStore "abc" 7 := by
  have h := claim2_mark_applied_hides_noop_idempotent emptyStore "abc" 5 7
  exact ⟨h.1, h.2.1 rfl, h.2.2⟩

end Tarish

namespace Tarish

/-- `GetMiner` keyed on the report identity, right after `UpsertMiner`,
returns exactly the decoded row built from that report. -/
theorem getMiner_upsertMiner (st : StoreState) (r : AgentReport) (now : Nat) :
    getMiner (upsertMiner st r now) (reportKey r) now =
      some (rowToMiner now (reportRow r now)) := by
  show ((upsertMinerRow (reportRow r now) st.miners).find?
      (fun m => m.id == reportKey r)).map (rowToMiner now) =
    some (rowToMiner now (reportRow r now))
  exact congrArg (Option.map (rowToMiner now)) (upsertMinerRow_find (reportRow r now) st.miners)

/-- C3: after `UpsertMiner(R)`, the row `GetMiner(id)` returns reflects
exactly R's fields whatever was stored before (no merge of individual
fields), `last_seen` is advanced to the time of the call, and when R
carries hashrate data exactly one new history sample is appended by the
same call.  The config column is likewise a function of R alone: a
non-empty reported document is returned verbatim, while a nil or empty one
is stored as the empty-object text and read back as no config. -/
theorem claim3_upsert_then_get_reflects_report (st : StoreState) (r : AgentReport)
    (now : Nat) :
    ∃ m : Miner,
      getMiner (upsertMiner st r now) (reportKey r) now = some m ∧
      m.id = reportKey r ∧ m.minerId = r.minerId ∧ m.workerId = r.workerId ∧
      m.hostname = r.hostname ∧ m.ip = r.ip ∧ m.cpuModel = r.cpuModel ∧
      m.cpuFamily = r.cpuFamily ∧ m.cores = r.cores ∧ m.os = r.os ∧ m.arch = r.arch ∧
      m.xmrigVersion = r.xmrigVersion ∧ m.tarishVersion = r.tarishVersion ∧
      m.uptimeSeconds = r.uptimeSeconds ∧ m.lastSeen = now ∧
      (∀ h, r.hashrate = some h → m.hashrate = h) ∧
      (∀ h, r.hashrate = some h →
        (upsertMiner st r now).hashrateHistory =
          st.hashrateHistory ++ [⟨reportKey r, now, h.current, h.average, h.maxRate⟩]) ∧
      (∀ doc, r.config = some doc → doc ≠ [] → m.config = some doc) ∧
      ((r.config = none ∨ r.config = some []) → m.config = none) := by
  refine ⟨rowToMiner now (reportRow r now), getMiner_upsertMiner st r now,
    rfl, rfl, rfl, rfl, rfl, rfl, rfl, rfl, rfl, rfl, rfl, rfl, rfl, rfl, ?_, ?_, ?_, ?_⟩
  · intro h hh
    simp [rowToMiner, reportRow, hh]
  · intro h hh
    simp [upsertMiner, hh]
  · intro doc hcfg hne
    simp [rowToMiner, reportRow, hcfg, hne]
  · intro hcfg
    rcases hcfg with hcfg | hcfg <;> simp [rowToMiner, reportRow, hcfg]

/-- C3 witness: a concrete report with hashrate `(1000, 950, 1100)` and
config document `[("pool", "p1")]` into the empty store at time 100. -/
theorem claim3_witness :
    ∃ m : Miner,
      getMiner (upsertMiner emptyStore sampleReport 100) (reportKey sampleReport) 100 =
        some m ∧
      m.hashrate = ⟨1000, 950, 1100⟩ ∧
      m.config = some [("pool", "p1")] ∧
      (upsertMiner emptyStore sampleReport 100).hashrateHistory =
        [⟨reportKey sampleReport, 100, 1000, 950, 1100⟩] := by
  obtain ⟨m, hm, -, -, -, -, -, -, -, -, -, -, -, -, -, -, hhr, hhist, hcfg, -⟩ :=
    claim3_upsert_then_get_reflects_report emptyStore sampleReport 100
  exact ⟨m, hm, hhr ⟨1000, 950, 1100⟩ rfl, hcfg [("pool", "p1")] rfl (by simp),
    by rw [hhist ⟨1000, 950, 1100⟩ rfl]; rfl⟩

/-- C10: a report without hashrate data still overwrites the stored hashrate
columns with zeros — previous non-zero values are not preserved — and no
history sample is appended for that report. -/
theorem claim10_no_hashrate_zeroes_columns (st : StoreState) (r : AgentReport) (now : Nat)
    (hnone : r.hashrate = none) :
    (∃ m : Miner, getMiner (upsertMiner st r now) (reportKey r) now = some m ∧
      m.hashrate = ⟨0, 0, 0⟩) ∧
    (upsertMiner st r now).hashrateHistory = st.hashrateHistory := by
  refine ⟨⟨rowToMiner now (reportRow r now), getMiner_upsertMiner st r now, ?_⟩, ?_⟩
  · simp [rowToMiner, reportRow, hnone]
  · simp [upsertMiner, hnone]

/-- C10 witness: the miner first reports hashrate `(1000, 950, 1100)` at
time 50, then reports without hashrate data at time 100: the stored triple
becomes zero and the history keeps only the first sample. -/
theorem claim10_witness :
    (∃ m : Miner,
      getMiner (upsertMiner (upsertMiner emptyStore sampleReport 50) sampleReportNoHash 100)
          (reportKey sampleReportNoHash) 100 = some m ∧
      m.hashrate = ⟨0, 0, 0⟩) ∧
    (upsertMiner (upsertMiner emptyStore sampleReport 50) sampleReportNoHash
        100).hashrateHistory =
      (upsertMiner emptyStore sampleReport 50).hashrateHistory :=
  claim10_no_hashrate_zeroes_columns (upsertMiner emptyStore sampleReport 50)
    sampleReportNoHash 100 rfl

end Tarish

namespace Tarish

/-- C4: the derived status is a pure function of the elapsed time
`t = now - last_seen` with thresholds 90s and 300s, and the same derivation
is applied by every read path: `GetMiner`, `GetMiners` and (for the active
count) `GetOverview`. -/
theorem claim4_status_thresholds_all_read_paths (now ls : Nat) (st : StoreState) :
    (((now : Int) - (ls : Int) < 90 → minerStatus now ls = "online") ∧
      (90 ≤ (now : Int) - (ls : Int) → (now : Int) - (ls : Int) < 300 →
        minerStatus now ls = "stale") ∧
      (300 ≤ (now : Int) - (ls : Int) → minerStatus now ls = "offline")) ∧
    (∀ mid m, getMiner st mid now = some m → m.status = minerStatus now m.lastSeen) ∧
    (∀ m, m ∈ getMiners st now → m.status = minerStatus now m.lastSeen) ∧
    (getOverview st now).activeMiners =
      st.miners.countP (fun rw => minerStatus now rw.lastSeen == "online") := by
  refine ⟨⟨?_, ?_, ?_⟩, ?_, ?_, ?_⟩
  · intro h
    unfold minerStatus
    rw [if_pos h]
  · intro h1 h2
    unfold minerStatus
    rw [if_neg (by omega), if_pos h2]
  · intro h
    unfold minerStatus
    rw [if_neg (by omega), if_neg (by omega)]
  · intro mid m hm
    unfold getMiner at hm
    rcases hfind : st.miners.find? (fun mr => mr.id == mid) with _ | row
    · rw [hfind] at hm
      cases hm
    · rw [hfind] at hm
      injection hm with h
      rw [← h]
      rfl
  · intro m hmem
    unfold getMiners at hmem
    obtain ⟨row, hrow, heq⟩ := List.mem_map.mp hmem
    rw [← heq]
    rfl
  · show ((getMiners st now).filter (fun m => m.status == "online")).length = _
    rw [← List.countP_eq_length_filter]
    unfold getMiners minersByHashrateDesc
    rw [List.countP_map]
    rw [(List.perm_insertionSort
      (fun a b : MinerRow => b.hashrateCurrent ≤ a.hashrateCurrent) st.miners).countP_eq]
    rfl

/-- C4 witness: elapsed times 50, 150 and 350 seconds land in the three
status bands, and the overview of a one-miner store counts by the same
derivation. -/
theorem claim4_witness :
    minerStatus 100 50 = "online" ∧ minerStatus 200 50 = "stale" ∧
    minerStatus 400 50 = "offline" ∧
    (getOverview (upsertMiner emptyStore sampleReport 100) 100).activeMiners =
      (upsertMiner emptyStore sampleReport 100).miners.countP
        (fun rw => minerStatus 100 rw.lastSeen == "online") := by
  refine ⟨?_, ?_, ?_, ?_⟩
  · exact (claim4_status_thresholds_all_read_paths 100 50 emptyStore).1.1 (by decide)
  · exact (claim4_status_thresholds_all_read_paths 200 50 emptyStore).1.2.1 (by decide)
      (by decide)
  · exact (claim4_status_thresholds_all_read_paths 400 50 emptyStore).1.2.2 (by decide)
  · exact (claim4_status_thresholds_all_read_paths 100 50
      (upsertMiner emptyStore sampleReport 100)).2.2.2

end Tarish

namespace Tarish

/-- The PRIMARY KEY invariant of `config_overrides`: pairwise distinct miner
ids, i.e. at most one row per miner id. -/
def overridesKeyUnique (l : List OverrideRow) : Prop :=
  l.Pairwise (fun a b => a.minerId ≠ b.minerId)

/-- Every row of an override upsert's result is the new row or an old row. -/
theorem setConfigOverrideRow_mem (row : OverrideRow) :
    ∀ l : List OverrideRow, ∀ x ∈ setConfigOverrideRow row l, x = row ∨ x ∈ l := by
  intro l
  induction l with
  | nil =>
    intro x hx
    unfold setConfigOverrideRow at hx
    exact Or.inl (List.mem_singleton.mp hx)
  | cons o os ih =>
    intro x hx
    unfold setConfigOverrideRow at hx
    by_cases h : o.minerId = row.minerId
    · rw [if_pos h] at hx
      rcases List.mem_cons.mp hx with hx' | hx'
      · exact Or.inl hx'
      · exact Or.inr (List.mem_cons_of_mem _ hx')
    · rw [if_neg h] at hx
      rcases List.mem_cons.mp hx with hx' | hx'
      · exact Or.inr (hx' ▸ List.mem_cons_self o os)
      · rcases ih x hx' with h' | h'
        · exact Or.inl h'
        · exact Or.inr (List.mem_cons_of_mem _ h')

/-- The replace-on-conflict upsert preserves key uniqueness. -/
theorem setConfigOverrideRow_unique (row : OverrideRow) :
    ∀ l : List OverrideRow, overridesKeyUnique l →
      overridesKeyUnique (setConfigOverrideRow row l) := by
  intro l
  induction l with
  | nil =>
    intro _
    unfold setConfigOverrideRow overridesKeyUnique
    exact List.pairwise_singleton _ _
  | cons o os ih =>
    intro hu
    rw [overridesKeyUnique, List.pairwise_cons] at hu
    obtain ⟨ho, hos⟩ := hu
    unfold setConfigOverrideRow
    by_cases h : o.minerId = row.minerId
    · rw [if_pos h, overridesKeyUnique, List.pairwise_cons]
      exact ⟨fun b hb => h ▸ ho b hb, hos⟩
    · rw [if_neg h, overridesKeyUnique, List.pairwise_cons]
      refine ⟨?_, ih hos⟩
      intro b hb
      rcases setConfigOverrideRow_mem row os b hb with hb' | hb'
      · rw [hb']
        exact h
      · exact ho b hb'

/-- Under key uniqueness, at most one row matches any given miner id. -/
theorem keyUnique_count_le_one (k : String) :
    ∀ l : List OverrideRow, overridesKeyUnique l →
      (l.filter (fun o => o.minerId == k)).length ≤ 1 := by
  intro l
  induction l with
  | nil => intro _; simp
  | cons o os ih =>
    intro hu
    rw [overridesKeyUnique, List.pairwise_cons] at hu
    obtain ⟨ho, hos⟩ := hu
    by_cases h : o.minerId = k
    · rw [List.filter_cons_of_pos (by simp [h])]
      have hnil : os.filter (fun o => o.minerId == k) = [] := by
        rw [List.filter_eq_nil_iff]
        intro b hb
        have hne := ho b hb
        simp only [beq_iff_eq]
        intro hbk
        exact hne (h.trans hbk.symm)
      rw [hnil]
      exact Nat.le_refl 1
    · rw [List.filter_cons_of_neg (by simp [h])]
      exact ih hos

/-- C5: at most one `config_overrides` row per miner id; `SetConfigOverride`
(replace-on-conflict keyed on the miner id), `MarkConfigApplied` and
`DeleteConfigOverride` all preserve the invariant, which holds of the
freshly migrated store. -/
theorem claim5_override_rows_unique_per_id (st : StoreState) (mid : String) (doc : Json)
    (now : Nat) :
    (overridesKeyUnique st.configOverrides →
      overridesKeyUnique (setConfigOverride st mid doc now).configOverrides) ∧
    (overridesKeyUnique st.configOverrides →
      overridesKeyUnique (markConfigApplied st mid now).configOverrides) ∧
    (overridesKeyUnique st.configOverrides →
      overridesKeyUnique (deleteConfigOverride st mid).configOverrides) ∧
    (∀ k, overridesKeyUnique st.configOverrides →
      ((setConfigOverride st mid doc now).configOverrides.filter
          (fun o => o.minerId == k)).length ≤ 1) ∧
    overridesKeyUnique emptyStore.configOverrides := by
  have hkey : ∀ o : OverrideRow,
      ((fun o => if o.minerId == mid then { o with appliedAt := some now } else o) o).minerId =
        o.minerId := by
    intro o
    by_cases h : o.minerId = mid <;> simp [h]
  refine ⟨?_, ?_, ?_, ?_, List.Pairwise.nil⟩
  · intro hu
    exact setConfigOverrideRow_unique _ st.configOverrides hu
  · intro hu
    exact List.Pairwise.map _ (fun a b hab => by rw [hkey a, hkey b]; exact hab) hu
  · intro hu
    exact List.Pairwise.sublist (List.filter_sublist _) hu
  · intro k hu
    exact keyUnique_count_le_one k _ (setConfigOverrideRow_unique _ st.configOverrides hu)

/-- C5 witness: setting one override on the empty store keeps the invariant
and leaves at most one matching row. -/
theorem claim5_witness :
    overridesKeyUnique (setConfigOverride emptyStore "abc" [("cpu", "3")] 1).configOverrides ∧
    ((setConfigOverride emptyStore "abc" [("cpu", "3")] 1).configOverrides.filter
        (fun o => o.minerId == "abc")).length ≤ 1 := by
  have h := claim5_override_rows_unique_per_id emptyStore "abc" [("cpu", "3")] 1
  exact ⟨h.1 List.Pairwise.nil, h.2.2.2.1 "abc" List.Pairwise.nil⟩

end Tarish

namespace Tarish

/-- C6: with a shared secret configured, any request to a protected endpoint
(report ingestion, pending-override read, override ack) whose bearer token
does not match is rejected explicitly with the store untouched — the
handler, hence any store operation, never runs; all other endpoints bypass
the middleware, and with no secret configured the protected endpoints accept
requests without a token. -/
theorem claim6_bearer_token_gates_protected_endpoints {ρ : Type} (key hdr : String)
    (e : Endpoint) (handler : StoreState → StoreState × ρ) (st : StoreState) :
    (key ≠ "" → hdr ≠ "Bearer " ++ key → isProtectedEndpoint e = true →
      serveEndpoint key e hdr handler st = (st, ApiOutcome.rejected)) ∧
    (isProtectedEndpoint e = false →
      serveEndpoint key e hdr handler st = ((handler st).1, ApiOutcome.ok (handler st).2)) ∧
    (key = "" →
      serveEndpoint key e hdr handler st = ((handler st).1, ApiOutcome.ok (handler st).2)) ∧
    isProtectedEndpoint Endpoint.report = true ∧
    isProtectedEndpoint Endpoint.getPendingConfig = true ∧
    isProtectedEndpoint Endpoint.ackConfig = true ∧
    isProtectedEndpoint Endpoint.getMinersEp = false ∧
    isProtectedEndpoint Endpoint.getMinerEp = false ∧
    isProtectedEndpoint Endpoint.setConfigEp = false ∧
    isProtectedEndpoint Endpoint.deleteConfigEp = false ∧
    isProtectedEndpoint Endpoint.overviewEp = false ∧
    isProtectedEndpoint Endpoint.hashrateHistoryEp = false ∧
    isProtectedEndpoint Endpoint.proxySummaryEp = false ∧
    isProtectedEndpoint Endpoint.proxyWorkersEp = false := by
  refine ⟨?_, ?_, ?_, rfl, rfl, rfl, rfl, rfl, rfl, rfl, rfl, rfl, rfl, rfl⟩
  · intro hk hh hp
    unfold serveEndpoint authMiddleware
    rw [hp]
    simp [hk, hh]
  · intro hp
    unfold serveEndpoint
    rw [hp]
    simp
  · intro hk
    subst hk
    unfold serveEndpoint authMiddleware
    by_cases hp : isProtectedEndpoint e <;> simp [hp]

/-- C6 witness: with secret `secret` and no token, `POST /api/report` is
rejected and its handler (an `UpsertMiner`) never runs; the unprotected
overview endpoint and the no-secret configuration both go through. -/
theorem claim6_witness :
    serveEndpoint "secret" Endpoint.report ""
        (fun st => (upsertMiner st sampleReport 100, true)) emptyStore =
      (emptyStore, ApiOutcome.rejected) ∧
    serveEndpoint "" Endpoint.report ""
        (fun st => (upsertMiner st sampleReport 100, true)) emptyStore =
      (upsertMiner emptyStore sampleReport 100, ApiOutcome.ok true) ∧
    serveEndpoint "secret" Endpoint.overviewEp "" (fun st => (st, true)) emptyStore =
      (emptyStore, ApiOutcome.ok true) := by
  refine ⟨?_, ?_, ?_⟩
  · exact (claim6_bearer_token_gates_protected_endpoints "secret" "" Endpoint.report
      (fun st => (upsertMiner st sampleReport 100, true)) emptyStore).1
      (by decide) (by decide) rfl
  · exact (claim6_bearer_token_gates_protected_endpoints "" "" Endpoint.report
      (fun st => (upsertMiner st sampleReport 100, true)) emptyStore).2.2.1 rfl
  · exact (claim6_bearer_token_gates_protected_endpoints "secret" "" Endpoint.overviewEp
      (fun st => (st, true)) emptyStore).2.1 rfl

end Tarish

namespace Tarish

instance : IsTotal MinerRow (fun a b => b.hashrateCurrent ≤ a.hashrateCurrent) :=
  ⟨fun a b => le_total b.hashrateCurrent a.hashrateCurrent⟩

instance : IsTrans MinerRow (fun a b => b.hashrateCurrent ≤ a.hashrateCurrent) :=
  ⟨fun _ _ _ hab hbc => le_trans hbc hab⟩

instance : IsTotal HistRow (fun a b => a.timestamp ≤ b.timestamp) :=
  ⟨fun a b => Nat.le_total a.timestamp b.timestamp⟩

instance : IsTrans HistRow (fun a b => a.timestamp ≤ b.timestamp) :=
  ⟨fun _ _ _ hab hbc => Nat.le_trans hab hbc⟩

/-- C7 as amended: `GetOverview` returns the total number of miners, the
count of miners with derived status online, the sum of the online miners'
current hashrate, the sum (not the mean) of the online miners' reported
average hashrate, and the top five miners of the hashrate-descending
listing; miners whose derived status is not online — in particular a miner
silent for 400 seconds — contribute to none of the aggregates. -/
theorem claim7_overview_aggregates (st : StoreState) (now : Nat) :
    (getOverview st now).totalMiners = st.miners.length ∧
    (getOverview st now).activeMiners =
      st.miners.countP (fun rw => minerStatus now rw.lastSeen == "online") ∧
    (getOverview st now).totalHashrate =
      ((st.miners.filter (fun rw => minerStatus now rw.lastSeen == "online")).map
        (fun rw => rw.hashrateCurrent)).sum ∧
    (getOverview st now).averageHashrate =
      ((st.miners.filter (fun rw => minerStatus now rw.lastSeen == "online")).map
        (fun rw => rw.hashrateAverage)).sum ∧
    (getOverview st now).topMiners = (getMiners st now).take 5 ∧
    List.Sorted (fun a b : Miner => b.hashrate.current ≤ a.hashrate.current)
      (getOverview st now).topMiners := by
  have hperm : List.Perm (minersByHashrateDesc st.miners) st.miners :=
    List.perm_insertionSort _ st.miners
  refine ⟨?_, ?_, ?_, ?_, rfl, ?_⟩
  · show (getMiners st now).length = st.miners.length
    unfold getMiners
    rw [List.length_map]
    exact hperm.length_eq
  · show ((getMiners st now).filter (fun m => m.status == "online")).length = _
    rw [← List.countP_eq_length_filter]
    unfold getMiners minersByHashrateDesc
    rw [List.countP_map]
    rw [(List.perm_insertionSort
      (fun a b : MinerRow => b.hashrateCurrent ≤ a.hashrateCurrent) st.miners).countP_eq]
    rfl
  · show (((getMiners st now).filter (fun m => m.status == "online")).map
      (fun m => m.hashrate.current)).sum = _
    unfold getMiners
    rw [List.filter_map, List.map_map]
    exact ((hperm.filter _).map _).sum_eq
  · show (((getMiners st now).filter (fun m => m.status == "online")).map
      (fun m => m.hashrate.average)).sum = _
    unfold getMiners
    rw [List.filter_map, List.map_map]
    exact ((hperm.filter _).map _).sum_eq
  · show List.Sorted _ ((getMiners st now).take 5)
    apply List.Pairwise.sublist (List.take_sublist 5 _)
    unfold getMiners minersByHashrateDesc
    exact List.Pairwise.map _ (fun a b hab => hab)
      (List.sorted_insertionSort (fun a b : MinerRow => b.hashrateCurrent ≤ a.hashrateCurrent)
        st.miners)

/-- Report used in the C7 refutation: every hashrate field is 10. -/
def reportTen : AgentReport :=
  { sampleReport with minerId := "m10", hashrate := some ⟨10, 10, 10⟩ }

/-- Report used in the C7 refutation: every hashrate field is 20. -/
def reportTwenty : AgentReport :=
  { sampleReport with minerId := "m20", hashrate := some ⟨20, 20, 20⟩ }

/-- Store with two online miners whose hashrates (current and average alike)
are 10 and 20. -/
def overviewCounterState : StoreState :=
  upsertMiner (upsertMiner emptyStore reportTen 100) reportTwenty 100

/-- C7 counterexample: with two online miners of hashrate 10 and 20, the
`average_hashrate` the overview returns is 30 — the sum of the miners'
average hashrates — not the average of the online miners' hashrate, which
is 15 under any reading. -/
theorem claim7_counterexample :
    (getOverview overviewCounterState 100).activeMiners = 2 ∧
    (getOverview overviewCounterState 100).totalHashrate = 30 ∧
    (getOverview overviewCounterState 100).averageHashrate = 30 ∧
    (getOverview overviewCounterState 100).averageHashrate ≠
      (getOverview overviewCounterState 100).totalHashrate /
        ((getOverview overviewCounterState 100).activeMiners : Rat) ∧
    (getOverview overviewCounterState 100).averageHashrate ≠ 15 := by
  have hA : (getOverview overviewCounterState 100).activeMiners = 2 := by decide
  have hT : (getOverview overviewCounterState 100).totalHashrate = 30 := by
    simp [getOverview, getMiners, minersByHashrateDesc, upsertMiner, upsertMinerRow,
      emptyStore, reportRow, reportTen, reportTwenty, sampleReport, reportKey,
      overviewCounterState]
    norm_num [rowToMiner, minerStatus, List.filter, List.sum]
  have hAvg : (getOverview overviewCounterState 100).averageHashrate = 30 := by
    simp [getOverview, getMiners, minersByHashrateDesc, upsertMiner, upsertMinerRow,
      emptyStore, reportRow, reportTen, reportTwenty, sampleReport, reportKey,
      overviewCounterState]
    norm_num [rowToMiner, minerStatus, List.filter, List.sum]
  refine ⟨hA, hT, hAvg, ?_, ?_⟩
  · rw [hAvg, hT, hA]
    norm_num
  · rw [hAvg]
    norm_num

end Tarish

namespace Tarish

/-- C8 as amended: `GetHashrateHistory` returns exactly the stored samples
strictly newer than the bound — restricted to the given miner when the id
is non-empty, all miners when it is empty — ordered by non-decreasing
timestamp (ascending, with duplicate timestamps adjacent; the order is
strict only when the timestamps in the window are distinct). -/
theorem claim8_history_window_sorted (st : StoreState) (mid : String) (since : Nat) :
    List.Perm (getHashrateHistory st mid since)
      (st.hashrateHistory.filter (histMatches mid since)) ∧
    List.Sorted (fun a b : HistRow => a.timestamp ≤ b.timestamp)
      (getHashrateHistory st mid since) ∧
    ∀ h : HistRow, h ∈ getHashrateHistory st mid since ↔
      h ∈ st.hashrateHistory ∧ since < h.timestamp ∧ (mid = "" ∨ h.minerId = mid) := by
  refine ⟨List.perm_insertionSort _ _, List.sorted_insertionSort _ _, ?_⟩
  intro h
  unfold getHashrateHistory
  rw [List.mem_insertionSort, List.mem_filter]
  unfold histMatches
  simp [and_assoc]

/-- Store state produced by posting the identical report twice at time 100:
the history holds two samples with the same timestamp. -/
def dupSampleState : StoreState :=
  upsertMiner (upsertMiner emptyStore sampleReport 100) sampleReport 100

/-- C8 counterexample: after the same report is posted twice at time 100 —
which the code tolerates — the returned window's timestamps are `[100, 100]`,
which is not strictly ascending, so the result is not strictly ordered by
timestamp as claimed. -/
theorem claim8_counterexample :
    (getHashrateHistory dupSampleState "abc" 0).map (fun h => h.timestamp) = [100, 100] ∧
    ¬ List.Chain' (fun a b : Nat => a < b)
        ((getHashrateHistory dupSampleState "abc" 0).map (fun h => h.timestamp)) := by
  constructor
  · decide
  · rw [show (getHashrateHistory dupSampleState "abc" 0).map (fun h => h.timestamp) =
      [100, 100] by decide]
    intro hchain
    rw [List.chain'_cons] at hchain
    omega

/-- A miner upsert leaves exactly one row with the report's key, provided at
most one such row existed before (the primary-key invariant). -/
theorem upsertMinerRow_count (row : MinerRow) :
    ∀ l : List MinerRow, (l.filter (fun m => m.id == row.id)).length ≤ 1 →
      ((upsertMinerRow row l).filter (fun m => m.id == row.id)).length = 1 := by
  intro l
  induction l with
  | nil => intro _; simp [upsertMinerRow]
  | cons m ms ih =>
    intro hle
    unfold upsertMinerRow
    by_cases h : m.id = row.id
    · rw [if_pos h, List.filter_cons_of_pos (by simp)]
      have hz : (ms.filter (fun m' => m'.id == row.id)).length = 0 := by
        rw [List.filter_cons_of_pos (by simp [h])] at hle
        simp only [List.length_cons] at hle
        omega
      simp [hz]
    · rw [if_neg h, List.filter_cons_of_neg (by simp [h])]
      apply ih
      rw [List.filter_cons_of_neg (by simp [h])] at hle
      exact hle

/-- C9: posting the identical report (with hashrate data) twice leaves
exactly one miner row for that identity but appends two history samples;
with equal posting times the two samples carry duplicate timestamps and
simply coexist. -/
theorem claim9_identical_report_twice (st : StoreState) (r : AgentReport)
    (hd : HashrateData) (t1 t2 : Nat)
    (hle : (st.miners.filter (fun m => m.id == reportKey r)).length ≤ 1)
    (hhr : r.hashrate = some hd) :
    ((upsertMiner (upsertMiner st r t1) r t2).miners.filter
        (fun m => m.id == reportKey r)).length = 1 ∧
    (upsertMiner (upsertMiner st r t1) r t2).hashrateHistory =
      st.hashrateHistory ++
        [⟨reportKey r, t1, hd.current, hd.average, hd.maxRate⟩,
          ⟨reportKey r, t2, hd.current, hd.average, hd.maxRate⟩] := by
  constructor
  · have h1 : ((upsertMinerRow (reportRow r t1) st.miners).filter
        (fun m => m.id == reportKey r)).length = 1 :=
      upsertMinerRow_count (reportRow r t1) st.miners hle
    exact upsertMinerRow_count (reportRow r t2)
      (upsertMinerRow (reportRow r t1) st.miners) h1.le
  · simp [upsertMiner, hhr]

/-- C9 witness: the sample report posted twice at time 100 into the empty
store: one miner row, two identical-timestamp samples. -/
theorem claim9_witness :
    ((upsertMiner (upsertMiner emptyStore sampleReport 100) sampleReport 100).miners.filter
        (fun m => m.id == reportKey sampleReport)).length = 1 ∧
    (upsertMiner (upsertMiner emptyStore sampleReport 100) sampleReport 100).hashrateHistory =
      [⟨reportKey sampleReport, 100, 1000, 950, 1100⟩,
        ⟨reportKey sampleReport, 100, 1000, 950, 1100⟩] := by
  have h := claim9_identical_report_twice emptyStore sampleReport ⟨1000, 950, 1100⟩ 100 100
    (Nat.zero_le 1) rfl
  exact ⟨h.1, h.2⟩

end Tarish
